import Mathlib

/-!
Verification of the ROTSE weather-station daemon against its specification.

The definitions below are a shallow embedding of the Python sources:

* `queue_data`, `enqueueAll` embed `WeatherDaemon.queue_data`
  (src/weather-daemon.py, lines 217-236): a `queue.Queue(maxsize=cap)`
  modelled as a Lean list (front = oldest); when the queue is full the
  oldest element is removed before the new one is inserted.
* `requeuePutNowait`, `drainCycle` embed `WeatherDaemon.data_sender_worker`
  (src/weather-daemon.py, lines 238-278).
* `parse_weather_data_us` embeds `WeatherStationDaemon.parse_weather_data`
  (src/weather_daemon.py, lines 175-209): tokenization on single spaces,
  a fixed key table, Python `float()` acceptance, dict accumulation.
* `parse_weather_data_re` embeds `WeatherDaemon.parse_weather_data`
  (src/weather-daemon.py, lines 180-193): `re.search` with the pattern
  `T:(\d+\.?\d*)\s+H:(\d+\.?\d*)\s+P:(\d+\.?\d*)\s+WS:(\d+\.?\d*)`.
* `acqDispatch` embeds the send-or-queue decision of `WeatherDaemon.run`
  (src/weather-daemon.py, lines 417-421).
* `connectRetry` embeds the retry loop shared by
  `WeatherDaemon.connect_serial` and `WeatherDaemon.connect_influxdb`
  (src/weather-daemon.py, lines 110-178).
* `watchdogDataCheck` embeds the data-staleness branch of
  `WeatherDaemon.watchdog_worker` (src/weather-daemon.py, lines 284-293).
* `mainIter` embeds the `consecutive_errors` bookkeeping of
  `WeatherDaemon.run` (src/weather-daemon.py, lines 379-453).
* `influxPointTime` embeds the timestamp defaulting of
  `WeatherDaemon.send_to_influxdb` (src/weather-daemon.py, lines 195-198)
  and `WeatherDaemon.queue_data` (lines 219-220).

Machine floats only ever flow through the code as opaque payloads for the
claims below, so readings carry their raw value strings; timestamps are
abstracted as naturals.
-/

/-- Python `queue.Queue.full()`: true when `0 < maxsize <= qsize()`. -/
def queueFull (cap : Nat) (q : List α) : Bool :=
  decide (0 < cap) && decide (cap ≤ q.length)

/-- Embeds `WeatherDaemon.queue_data` (src/weather-daemon.py 217-236):
if the queue is full, `get_nowait` removes the oldest element, then
`put_nowait` appends the new one. -/
def queue_data (cap : Nat) (q : List α) (x : α) : List α :=
  if queueFull cap q then (q.drop 1) ++ [x] else q ++ [x]

/-- A sequence of `queue_data` calls. -/
def enqueueAll (cap : Nat) (q : List α) (xs : List α) : List α :=
  xs.foldl (queue_data cap) q

theorem length_queue_data_le {cap : Nat} (hc : 0 < cap) (q : List α) (x : α)
    (hq : q.length ≤ cap) : (queue_data cap q x).length ≤ cap := by
  unfold queue_data queueFull
  by_cases h2 : cap ≤ q.length
  · simp [hc, h2, List.length_drop]
    omega
  · simp [h2, List.length_append]
    omega

theorem length_enqueueAll_le {cap : Nat} (hc : 0 < cap) (q : List α)
    (xs : List α) (hq : q.length ≤ cap) :
    (enqueueAll cap q xs).length ≤ cap := by
  induction xs generalizing q with
  | nil => simpa [enqueueAll]
  | cons x xs ih =>
    have h1 : (queue_data cap q x).length ≤ cap :=
      length_queue_data_le hc q x hq
    simpa [enqueueAll] using ih (queue_data cap q x) h1

theorem queue_data_not_full {cap : Nat} (q : List α) (x : α)
    (h : q.length < cap) : queue_data cap q x = q ++ [x] := by
  unfold queue_data queueFull
  have : ¬ cap ≤ q.length := by omega
  simp [this]

theorem queue_data_full {cap : Nat} (q : List α) (x : α)
    (hc : 0 < cap) (h : cap ≤ q.length) :
    queue_data cap q x = (q.drop 1) ++ [x] := by
  unfold queue_data queueFull
  simp [hc, h]

theorem enqueueAll_of_fits {cap : Nat} (xs : List α) (q : List α)
    (h : q.length + xs.length ≤ cap) : enqueueAll cap q xs = q ++ xs := by
  induction xs generalizing q with
  | nil => simp [enqueueAll]
  | cons x xs ih =>
    have hlt : q.length < cap := by
      simp [List.length_cons] at h; omega
    have step : queue_data cap q x = q ++ [x] := queue_data_not_full q x hlt
    have hrec : (q ++ [x]).length + xs.length ≤ cap := by
      simp [List.length_append] at h ⊢; omega
    calc enqueueAll cap q (x :: xs)
        = enqueueAll cap (queue_data cap q x) xs := rfl
      _ = enqueueAll cap (q ++ [x]) xs := by rw [step]
      _ = (q ++ [x]) ++ xs := ih (q ++ [x]) hrec
      _ = q ++ x :: xs := by simp

/-- Claim C1: the durability queue never exceeds its capacity; an
enqueue into a full queue evicts exactly the oldest item and appends the
new one; enqueueing N+1 items into an empty queue of capacity N leaves
exactly items 2..N+1 (the first item evicted), at size N. -/
theorem c1_queue_bound (cap : Nat) (hc : 0 < cap) :
    (∀ (q xs : List Nat), q.length ≤ cap →
        (enqueueAll cap q xs).length ≤ cap) ∧
    (∀ (q : List Nat) (x : Nat), q.length = cap →
        queue_data cap q x = (q.drop 1) ++ [x] ∧
        (queue_data cap q x).length = cap) ∧
    (∀ xs : List Nat, xs.length = cap + 1 →
        enqueueAll cap [] xs = xs.drop 1 ∧
        (enqueueAll cap [] xs).length = cap) := by
  refine ⟨fun q xs hq => length_enqueueAll_le hc q xs hq, ?_, ?_⟩
  · intro q x hq
    have h1 : queue_data cap q x = (q.drop 1) ++ [x] :=
      queue_data_full q x hc (le_of_eq hq.symm)
    constructor
    · exact h1
    · rw [h1]; simp [List.length_drop, hq]; omega
  · intro xs hlen
    rcases List.eq_nil_or_concat xs with hnil | ⟨ys, y, rfl⟩
    · rw [hnil] at hlen; simp at hlen
    simp only [List.concat_eq_append] at hlen ⊢
    have hys : ys.length = cap := by
      simp [List.length_append] at hlen; omega
    have h0 : enqueueAll cap ([] : List Nat) ys = ys :=
      by simpa using enqueueAll_of_fits ys [] (by simp [hys])
    have hstep : enqueueAll cap ([] : List Nat) (ys ++ [y])
        = queue_data cap ys y := by
      unfold enqueueAll
      rw [List.foldl_append,
        show List.foldl (queue_data cap) ([] : List Nat) ys = ys from h0]
      rfl
    have hful : queue_data cap ys y = (ys.drop 1) ++ [y] :=
      queue_data_full ys y hc (le_of_eq hys.symm)
    have hdrop : (ys ++ [y]).drop 1 = (ys.drop 1) ++ [y] := by
      have : 1 ≤ ys.length := by omega
      rw [List.drop_append_of_le_length this]
    constructor
    · rw [hstep, hful, hdrop]
    · rw [hstep, hful]
      simp [List.length_drop, hys]
      omega

/-- Witness for C1 at capacity 2: pushing [1,2,3] into an empty queue of
capacity 2 leaves [2,3]. -/
theorem c1_queue_bound_wit :
    (0 < 2) ∧ enqueueAll 2 ([] : List Nat) [1, 2, 3] = [2, 3] := by
  refine ⟨by decide, ?_⟩
  have h := ((c1_queue_bound 2 (by decide)).2.2) [1, 2, 3] (by decide)
  simpa using h.1


/-- Embeds the re-enqueue step of `WeatherDaemon.data_sender_worker`
(src/weather-daemon.py 263-267): `put_nowait(item)` inside
`except queue.Full`, which drops the failed item itself when the queue
is full. -/
def requeuePutNowait (cap : Nat) (q : List α) (x : α) : List α :=
  if queueFull cap q then q else q ++ [x]

/-- Embeds one pass of the batch loop in
`WeatherDaemon.data_sender_worker` (src/weather-daemon.py 246-267):
dequeue `min 10 qsize` items in FIFO order, send each, collect failures
in order, then re-enqueue the failures with `put_nowait`. -/
def drainCycle (cap : Nat) (send : α → Bool) (q : List α) : List α :=
  let n := min 10 q.length
  let batch := q.take n
  let rest := q.drop n
  let failed := batch.filter (fun x => !send x)
  failed.foldl (requeuePutNowait cap) rest

theorem foldl_requeue_fits {cap : Nat} (fs : List α) (q : List α)
    (h : q.length + fs.length ≤ cap ∨ cap = 0) :
    fs.foldl (requeuePutNowait cap) q = q ++ fs := by
  induction fs generalizing q with
  | nil => simp
  | cons f fs ih =>
    have hstep : requeuePutNowait cap q f = q ++ [f] := by
      unfold requeuePutNowait queueFull
      rcases h with h | h
      · have : ¬ cap ≤ q.length := by
          simp [List.length_cons] at h; omega
        simp [this]
      · simp [h]
    have hrec : (q ++ [f]).length + fs.length ≤ cap ∨ cap = 0 := by
      rcases h with h | h
      · left; simp [List.length_append] at h ⊢; omega
      · right; exact h
    calc List.foldl (requeuePutNowait cap) q (f :: fs)
        = List.foldl (requeuePutNowait cap) (requeuePutNowait cap q f) fs :=
          rfl
      _ = List.foldl (requeuePutNowait cap) (q ++ [f]) fs := by rw [hstep]
      _ = (q ++ [f]) ++ fs := ih (q ++ [f]) hrec
      _ = q ++ f :: fs := by simp

/-- Counterexample to claim C5: on a full queue the drain worker's
re-enqueue (`put_nowait` under `except queue.Full`) keeps the old
contents and drops the re-enqueued item, whereas `queue_data`'s
drop-oldest policy would evict the oldest item and keep the new one. -/
theorem c5_requeue_cex :
    requeuePutNowait 1 [(0 : Nat)] 1 = [0] ∧
    queue_data 1 [(0 : Nat)] 1 = [1] ∧
    requeuePutNowait 1 [(0 : Nat)] 1 ≠ queue_data 1 [(0 : Nat)] 1 := by
  refine ⟨by decide, by decide, by decide⟩

/-- Amended claim C5: each drain cycle dequeues at most 10 items in FIFO
order; successes are discarded and failures re-enqueued in order via a
non-blocking put that, on a full queue, drops the failed item itself
(never evicting older entries and never blocking).  Starting within
capacity, a sequential cycle loses nothing: the result is the
undequeued remainder followed by the failed items. -/
theorem c5_drain_cycle (cap : Nat) (send : Nat → Bool) (q : List Nat)
    (hq : q.length ≤ cap) :
    (min 10 q.length ≤ 10) ∧
    (drainCycle cap send q =
      q.drop (min 10 q.length) ++
        (q.take (min 10 q.length)).filter (fun x => !send x)) ∧
    (∀ (r : List Nat) (x : Nat), cap ≤ r.length → 0 < cap →
      requeuePutNowait cap r x = r) := by
  refine ⟨Nat.min_le_left _ _, ?_, ?_⟩
  · unfold drainCycle
    apply foldl_requeue_fits
    rcases Nat.eq_zero_or_pos cap with hz | hp
    · right; exact hz
    · left
      have h1 : (q.drop (min 10 q.length)).length
          = q.length - min 10 q.length := by simp
      have h2 : ((q.take (min 10 q.length)).filter
          (fun x => !send x)).length ≤ (q.take (min 10 q.length)).length :=
        List.length_filter_le _ _
      have h3 : (q.take (min 10 q.length)).length = min 10 q.length := by
        simp [List.length_take, Nat.min_assoc]
      omega
  · intro r x hr hp
    unfold requeuePutNowait queueFull
    simp [hp, hr]

/-- Witness for C5 (amended): capacity 5, queue [1,2,3], only even items
send successfully; the cycle leaves [1,3] re-enqueued. -/
theorem c5_drain_cycle_wit :
    ([1, 2, 3].length ≤ 5) ∧
    drainCycle 5 (fun x => x % 2 == 0) [1, 2, 3] = [1, 3] := by
  refine ⟨by decide, ?_⟩
  have h := (c5_drain_cycle 5 (fun x => x % 2 == 0) [1, 2, 3]
    (by decide)).2.1
  rw [h]
  decide

/-- Dispositions of a freshly parsed reading in the main loop. -/
inductive Disposition where
  | sent : Disposition
  | queued : Disposition
deriving DecidableEq

/-- Embeds the send-or-queue decision of `WeatherDaemon.run`
(src/weather-daemon.py 417-421): `if self.influx_client and
self.send_to_influxdb(weather_data):` succeed, `else` the reading is
passed to `queue_data`. -/
def acqDispatch (cap : Nat) (influxConnected : Bool) (sendOk : Bool)
    (q : List α) (r : α) : Disposition × List α :=
  if influxConnected && sendOk then (Disposition.sent, q)
  else (Disposition.queued, queue_data cap q r)

theorem mem_queue_data (cap : Nat) (q : List α) (x : α) :
    x ∈ queue_data cap q x := by
  unfold queue_data
  by_cases h : queueFull cap q = true <;> simp [h]

/-- Claim C4: a parsed reading is either sent immediately or enqueued,
never discarded; in particular any immediate-send failure, including a
disconnected sink, lands the reading in the durability queue. -/
theorem c4_never_discarded (cap : Nat) (influxConnected sendOk : Bool)
    (q : List Nat) (r : Nat) :
    ((acqDispatch cap influxConnected sendOk q r).1 = Disposition.sent →
      influxConnected = true ∧ sendOk = true ∧
      (acqDispatch cap influxConnected sendOk q r).2 = q) ∧
    (¬ (influxConnected = true ∧ sendOk = true) →
      (acqDispatch cap influxConnected sendOk q r).1 = Disposition.queued ∧
      r ∈ (acqDispatch cap influxConnected sendOk q r).2) := by
  constructor
  · intro h
    by_cases hc : influxConnected && sendOk
    · rcases Bool.and_eq_true_iff.mp hc with ⟨h1, h2⟩
      refine ⟨h1, h2, ?_⟩
      unfold acqDispatch
      simp [hc]
    · exfalso
      unfold acqDispatch at h
      simp [hc] at h
  · intro h
    have hc : ¬ (influxConnected && sendOk) = true := by
      intro hand
      exact h (Bool.and_eq_true_iff.mp hand)
    unfold acqDispatch
    simp only [hc, if_neg]
    exact ⟨rfl, mem_queue_data cap q r⟩

/-- Witness for C4: sink disconnected, queue full at capacity 1; the
reading 7 is still queued (the older item evicted). -/
theorem c4_never_discarded_wit :
    (¬ ((false = true) ∧ (false = true))) ∧
    (acqDispatch 1 false false [3] 7).1 = Disposition.queued ∧
    (7 : Nat) ∈ (acqDispatch 1 false false [3] 7).2 := by
  have h := (c4_never_discarded 1 false false [3] 7).2 (by simp)
  exact ⟨by simp, h.1, h.2⟩

/-- Embeds the retry loop shared by `WeatherDaemon.connect_serial`
(src/weather-daemon.py 110-145) and `WeatherDaemon.connect_influxdb`
(147-178), with the `running` flag held true: `remaining` counts the
attempts still allowed, `i` numbers the current attempt and
`outcome i` is whether that attempt's connect call succeeds.  The
result is (returned boolean, attempts made, sleeps of the configured
retry delay taken); the code sleeps after a failure only while
`retry_count < max_retries`, i.e. while attempts remain. -/
def connectRetry (outcome : Nat → Bool) : Nat → Nat → Bool × Nat × Nat
  | 0, _ => (false, 0, 0)
  | remaining + 1, i =>
    if outcome i then (true, 1, 0)
    else
      let rec' := connectRetry outcome remaining (i + 1)
      (rec'.1, rec'.2.1 + 1, rec'.2.2 + (if remaining = 0 then 0 else 1))

/-- Entry point of the retry loop: `retry_count` starts at 0. -/
def connect_serial (outcome : Nat → Bool) (maxRetries : Nat) :
    Bool × Nat × Nat :=
  connectRetry outcome maxRetries 0

theorem connectRetry_all_fail (outcome : Nat → Bool)
    (hf : ∀ i, outcome i = false) :
    ∀ (m i : Nat), 1 ≤ m → connectRetry outcome m i = (false, m, m - 1) := by
  intro m
  induction m with
  | zero => intro i h; omega
  | succ n ih =>
    intro i _
    rcases Nat.eq_zero_or_pos n with hz | hp
    · subst hz
      simp [connectRetry, hf i]
    · have hrec := ih (i + 1) hp
      simp only [connectRetry, hf i, if_false, Bool.false_eq_true, hrec]
      have : n ≠ 0 := by omega
      simp [this]
      omega

/-- Claim C6: with `max_attempts = M ≥ 1` and a connect target that
always fails, the retry loop makes exactly M attempts with the
configured delay slept between each consecutive pair (M - 1 sleeps),
then returns failure to the caller instead of aborting. -/
theorem c6_retry_exhaustion (outcome : Nat → Bool) (M : Nat)
    (hM : 1 ≤ M) (hf : ∀ i, outcome i = false) :
    connect_serial outcome M = (false, M, M - 1) :=
  connectRetry_all_fail outcome hf M 0 hM

/-- Witness for C6 at M = 3: 3 failed attempts, 2 delays, failure
returned. -/
theorem c6_retry_exhaustion_wit :
    connect_serial (fun _ => false) 3 = (false, 3, 2) :=
  c6_retry_exhaustion (fun _ => false) 3 (by decide) (fun _ => rfl)

/-- Embeds the data-staleness branch of `WeatherDaemon.watchdog_worker`
(src/weather-daemon.py 284-293): when the seconds since the last
reading exceed `data_timeout`, a warning is logged, and if the serial
connection object exists and reports open, `connect_serial()` is
invoked once.  Result: (warning logged, number of reconnection
invocations this cycle). -/
def watchdogDataCheck (dataTimeout elapsed : Nat) (connOpen : Bool) :
    Bool × Nat :=
  if dataTimeout < elapsed then
    (true, if connOpen then 1 else 0)
  else (false, 0)

/-- Total reconnection invocations over a list of watchdog cycles,
each given by (elapsed seconds since last data, connection open?). -/
def watchdogTriggers (dataTimeout : Nat) (cycles : List (Nat × Bool)) :
    Nat :=
  (cycles.map (fun c => (watchdogDataCheck dataTimeout c.1 c.2).2)).sum

/-- Claim C7: in any watchdog cycle where the data age exceeds the
timeout while the connection is nominally open, a warning is logged and
exactly one source-reconnection is triggered; no cycle ever triggers
more than one; over consecutive such cycles the count is one per
cycle. -/
theorem c7_watchdog (dataTimeout : Nat) :
    (∀ elapsed connOpen, dataTimeout < elapsed → connOpen = true →
      watchdogDataCheck dataTimeout elapsed connOpen = (true, 1)) ∧
    (∀ elapsed connOpen,
      (watchdogDataCheck dataTimeout elapsed connOpen).2 ≤ 1) ∧
    (∀ cycles : List (Nat × Bool),
      (∀ c ∈ cycles, dataTimeout < c.1 ∧ c.2 = true) →
      watchdogTriggers dataTimeout cycles = cycles.length) := by
  refine ⟨?_, ?_, ?_⟩
  · intro elapsed connOpen hstale hopen
    unfold watchdogDataCheck
    simp [hstale, hopen]
  · intro elapsed connOpen
    unfold watchdogDataCheck
    by_cases hstale : dataTimeout < elapsed
    · by_cases hopen : connOpen = true <;> simp [hstale, hopen]
    · simp [hstale]
  · intro cycles hall
    induction cycles with
    | nil => rfl
    | cons c cs ih =>
      have hc := hall c (List.mem_cons_self c cs)
      have hcs := ih (fun d hd => hall d (List.mem_cons_of_mem c hd))
      unfold watchdogTriggers at hcs ⊢
      simp only [List.map_cons, List.sum_cons, hcs]
      unfold watchdogDataCheck
      simp [hc.1, hc.2]
      omega

/-- Witness for C7: timeout 600, one cycle at 601 seconds with the
connection open triggers exactly one reconnection. -/
theorem c7_watchdog_wit :
    (600 < 601) ∧
    watchdogDataCheck 600 601 true = (true, 1) ∧
    watchdogTriggers 600 [(601, true), (700, true)] = 2 := by
  refine ⟨by decide, (c7_watchdog 600).1 601 true (by decide) rfl, ?_⟩
  have h := (c7_watchdog 600).2.2 [(601, true), (700, true)] (by decide)
  simpa using h

/-- Events one main-loop iteration can produce, as distinguished by the
exception handlers and the send path of `WeatherDaemon.run`
(src/weather-daemon.py 379-453). `quiet` covers every non-exception
iteration without a successful immediate send (no bytes waiting,
unparseable line, or a failed immediate send that queued the data). -/
inductive MainEvent where
  | serialError : MainEvent
  | decodeError : MainEvent
  | unexpectedError : MainEvent
  | sentOk : MainEvent
  | quiet : MainEvent

/-- Hardcoded `max_consecutive_errors = 10` (src/weather-daemon.py 380). -/
def max_consecutive_errors : Nat := 10

/-- Embeds the `consecutive_errors` bookkeeping of one iteration of
`WeatherDaemon.run` (src/weather-daemon.py 379-453).  Serial and
decode errors increment the counter and still reach the threshold
check at line 440; a successful immediate send resets it to 0; a quiet
iteration leaves it unchanged; an unexpected exception is caught by
the outer handler (line 450), incrementing the counter but skipping
the threshold check this iteration.  At the check, a counter at or
above 10 forces `os._exit(1)` when `restart_on_hang` is set (returned
as `none`), otherwise resets the counter to 0. -/
def mainIter (restartOnHang : Bool) (ce : Nat) (e : MainEvent) :
    Option Nat :=
  match e with
  | MainEvent.unexpectedError => some (ce + 1)
  | _ =>
    let ce' := match e with
      | MainEvent.serialError => ce + 1
      | MainEvent.decodeError => ce + 1
      | MainEvent.sentOk => 0
      | _ => ce
    if max_consecutive_errors ≤ ce' then
      if restartOnHang then none else some 0
    else some ce'

/-- A run of consecutive iterations; `none` means the process
restarted. -/
def mainIters (restartOnHang : Bool) (ce : Nat) (es : List MainEvent) :
    Option Nat :=
  es.foldlM (mainIter restartOnHang) ce

/-- Counterexample to claim C8: a non-failing iteration does not reset
the consecutive-error counter to zero — only a successful immediate
send does.  With the counter at 3, a quiet error-free iteration leaves
it at 3. -/
theorem c8_reset_cex :
    mainIter true 3 MainEvent.quiet = some 3 ∧
    mainIter true 3 MainEvent.quiet ≠ some 0 := by
  constructor
  · rfl
  · intro h
    simp [mainIter, max_consecutive_errors] at h

/-- Amended claim C8: the loop tracks consecutive errors (serial,
decode and unexpected exceptions all increment); the counter resets to
zero only on a successful immediate send, and is unchanged by other
non-failing iterations; once the counter reaches the hardcoded
threshold of 10 at the check point, the process is restarted when
`restart_on_hang` is set (an unexpected-exception iteration defers the
check to the next non-exception iteration); 10 consecutive serial
errors from a clean state restart the process, while a successful send
in between restarts the count from zero. -/
theorem c8_consecutive_errors (r : Bool) (ce : Nat) :
    (mainIter r ce MainEvent.sentOk = some 0) ∧
    (ce < max_consecutive_errors →
      mainIter r ce MainEvent.quiet = some ce) ∧
    (mainIter r ce MainEvent.serialError
      = mainIter r ce MainEvent.decodeError) ∧
    (mainIter r ce MainEvent.unexpectedError = some (ce + 1)) ∧
    (max_consecutive_errors ≤ ce + 1 →
      mainIter true ce MainEvent.serialError = none) ∧
    (mainIters true 0 (List.replicate 10 MainEvent.serialError) = none) ∧
    (mainIters true 0 (List.replicate 9 MainEvent.serialError
        ++ MainEvent.sentOk :: List.replicate 9 MainEvent.serialError)
      = some 9) := by
  refine ⟨?_, ?_, rfl, rfl, ?_, by decide, by decide⟩
  · simp [mainIter, max_consecutive_errors]
  · intro h
    simp only [mainIter]
    rw [if_neg (by omega)]
  · intro h
    simp only [mainIter]
    rw [if_pos (by omega)]
    rfl

/-- Witness for C8 (amended) at counter 9: one more serial error
restarts the process. -/
theorem c8_consecutive_errors_wit :
    (9 < max_consecutive_errors) ∧ (max_consecutive_errors ≤ 9 + 1) ∧
    mainIter true 9 MainEvent.quiet = some 9 ∧
    mainIter true 9 MainEvent.serialError = none := by
  refine ⟨by decide, by decide, ?_, ?_⟩
  · exact (c8_consecutive_errors true 9).2.1 (by decide)
  · exact (c8_consecutive_errors true 9).2.2.2.2.1 (by decide)

/-- Embeds the timestamp defaulting of `WeatherDaemon.send_to_influxdb`
(src/weather-daemon.py 197-198): `if timestamp is None: timestamp =
datetime.utcnow()`, after which the point is written at `timestamp`.
`WeatherDaemon.queue_data` (219-220) defaults the stored timestamp the
same way. -/
def influxPointTime (timestamp : Option Nat) (utcnow : Nat) : Nat :=
  timestamp.getD utcnow

/-- Embeds the enqueue of a failed reading (src/weather-daemon.py 421,
232): `queue_data(weather_data)` is called without a timestamp, so the
pair stored is `(weather_data, utcnow-at-enqueue)`. -/
def queueDataTs (cap : Nat) (q : List (α × Nat)) (data : α)
    (timestamp : Option Nat) (utcnow : Nat) : List (α × Nat) :=
  queue_data cap q (data, influxPointTime timestamp utcnow)

/-- Embeds the drain-side send (src/weather-daemon.py 254-255) and the
shutdown drain (338-339): the dequeued pair's stored timestamp is
passed to `send_to_influxdb`, so the written point carries it. -/
def drainSendTime (item : α × Nat) (utcnow : Nat) : Nat :=
  influxPointTime (some item.2) utcnow

/-- Claim C10: a reading that fails immediate send is enqueued with the
enqueue-time timestamp, and a later drain (or shutdown drain) writes it
at that preserved timestamp, not at the send time; an immediate send is
timestamped at send time. -/
theorem c10_timestamps (cap : Nat) (r : Nat) (t1 t2 : Nat)
    (q : List (Nat × Nat)) :
    ((r, t1) ∈ queueDataTs cap q r none t1) ∧
    (∀ item : Nat × Nat, item ∈ queueDataTs cap q r none t1 →
      drainSendTime item t2 = item.2) ∧
    (drainSendTime (r, t1) t2 = t1) ∧
    (influxPointTime none t2 = t2) := by
  refine ⟨mem_queue_data cap q (r, t1), ?_, rfl, rfl⟩
  intro item _
  rfl

/-- ASCII whitespace: the characters stripped by Python `str.strip()`
and matched by the regex class `\s`. -/
def pySpace (c : Char) : Bool :=
  c = ' ' || c = '\t' || c = '\n' || c = '\r' || c = '\x0b' || c = '\x0c'

/-- Python `str.strip()`. -/
def stripChars (s : List Char) : List Char :=
  ((s.dropWhile pySpace).reverse.dropWhile pySpace).reverse

/-- Python `str.split(sep)` for a one-character separator: split at
every occurrence, keeping empty pieces. -/
def splitChar (sep : Char) : List Char → List (List Char)
  | [] => [[]]
  | a :: rest =>
    match splitChar sep rest with
    | [] => [[]]
    | g :: gs => if a = sep then [] :: g :: gs else (a :: g) :: gs

def isAsciiDigit (c : Char) : Bool :=
  decide ('0' ≤ c) && decide (c ≤ '9')

/-- Continuation of a Python digit group: digits, with single
underscores allowed between digits. -/
def digitRest : List Char → List Char
  | '_' :: c :: rest =>
    if isAsciiDigit c then digitRest rest else '_' :: c :: rest
  | c :: rest => if isAsciiDigit c then digitRest rest else c :: rest
  | [] => []

/-- Consume a Python `digitpart` (a digit, then digits with embedded
underscores); returns the rest on success. -/
def digitpart : List Char → Option (List Char)
  | c :: rest => if isAsciiDigit c then some (digitRest rest) else none
  | [] => none

/-- Case-insensitive literal prefix (pattern given in lowercase). -/
def matchCaseless : List Char → List Char → Option (List Char)
  | [], cs => some cs
  | _ :: _, [] => none
  | p :: ps, c :: cs => if c.toLower = p then matchCaseless ps cs else none

/-- Consume the numeric part of a Python float literal:
`digitpart [. [digitpart]] | . digitpart`, then an optional exponent
`(e|E) [sign] digitpart`. -/
def pyFloatNumber (cs : List Char) : Option (List Char) :=
  let mant : Option (List Char) :=
    match digitpart cs with
    | some r =>
      match r with
      | '.' :: r2 =>
        match digitpart r2 with
        | some r3 => some r3
        | none => some r2
      | _ => some r
    | none =>
      match cs with
      | '.' :: r2 => digitpart r2
      | _ => none
  match mant with
  | none => none
  | some r =>
    match r with
    | e :: r2 =>
      if e = 'e' || e = 'E' then
        let r3 := match r2 with
          | s :: r4 => if s = '+' || s = '-' then r4 else s :: r4
          | [] => []
        match digitpart r3 with
        | some r5 => some r5
        | none => some (e :: r2)
      else some (e :: r2)
    | [] => some []

/-- Python `float(s)` acceptance: optional whitespace, optional sign,
`inf`/`infinity`/`nan` (case-insensitive) or a number, optional
trailing whitespace. -/
def pyFloatOk (cs : List Char) : Bool :=
  let t1 := cs.dropWhile pySpace
  let t2 := match t1 with
    | c :: r => if c = '+' || c = '-' then r else c :: r
    | [] => []
  let body : Option (List Char) :=
    match matchCaseless ['i', 'n', 'f', 'i', 'n', 'i', 't', 'y'] t2 with
    | some r => some r
    | none =>
      match matchCaseless ['i', 'n', 'f'] t2 with
      | some r => some r
      | none =>
        match matchCaseless ['n', 'a', 'n'] t2 with
        | some r => some r
        | none => pyFloatNumber t2
  match body with
  | some r => r.all pySpace
  | none => false

/-- The fixed key table of `WeatherStationDaemon.parse_weather_data`
(src/weather_daemon.py 186-191); unrecognized keys fall through to
`key.lower()`. -/
def field_mapping (k : List Char) : List Char :=
  if k = ['T'] then "temperature".data
  else if k = ['H'] then "humidity".data
  else if k = ['P'] then "pressure".data
  else if k = ['W', 'S'] then "windspeed".data
  else k.map Char.toLower

/-- Python `pair.split(':', 1)` when `':' in pair`: the part before the
first colon and everything after it; `none` when there is no colon. -/
def splitColonOnce : List Char → Option (List Char × List Char)
  | [] => none
  | c :: rest =>
    if c = ':' then some ([], rest)
    else
      match splitColonOnce rest with
      | some (k, v) => some (c :: k, v)
      | none => none

/-- Processing of one space-separated token (src/weather_daemon.py
193-203): tokens without a colon are skipped; otherwise the key is
stripped and mapped, and the token contributes a field exactly when
`float(value.strip())` succeeds.  The field carries the raw stripped
value string in place of the machine float. -/
def tokenField (tok : List Char) : Option (List Char × List Char) :=
  match splitColonOnce tok with
  | none => none
  | some (k, v) =>
    if pyFloatOk (stripChars v) then
      some (field_mapping (stripChars k), stripChars v)
    else none

/-- Python dict insertion-order semantics: an existing key is updated
in place, a new key appended. -/
def dictInsert (d : List (List Char × List Char)) (k v : List Char) :
    List (List Char × List Char) :=
  if d.any (fun p => p.1 = k) then
    d.map (fun p => if p.1 = k then (p.1, v) else p)
  else d ++ [(k, v)]

/-- One step of the accumulation loop of
`WeatherStationDaemon.parse_weather_data`. -/
def dictStep (d : List (List Char × List Char)) (tok : List Char) :
    List (List Char × List Char) :=
  match tokenField tok with
  | some (k, v) => dictInsert d k v
  | none => d

/-- Embeds `WeatherStationDaemon.parse_weather_data`
(src/weather_daemon.py 175-209): strip the line, return no reading if
empty, split on single spaces, accumulate convertible tokens into a
dict, return no reading if the dict stayed empty. -/
def parse_weather_data_us (line : List Char) :
    Option (List (List Char × List Char)) :=
  if stripChars line = [] then none
  else
    if (splitChar ' ' (stripChars line)).foldl dictStep [] = [] then none
    else some ((splitChar ' ' (stripChars line)).foldl dictStep [])

/-- The tokens of a line that contribute a field. -/
def validTokens (line : List Char) : List (List Char × List Char) :=
  (splitChar ' ' (stripChars line)).filterMap tokenField

/-- Key membership in the accumulated dict. -/
def HasKey (d : List (List Char × List Char)) (k : List Char) : Prop :=
  ∃ v, (k, v) ∈ d

theorem hasKey_dictInsert (d : List (List Char × List Char))
    (k v k' : List Char) :
    HasKey (dictInsert d k v) k' ↔ (HasKey d k' ∨ k' = k) := by
  unfold dictInsert HasKey
  by_cases hp : d.any (fun p => decide (p.1 = k)) = true
  · simp only [hp, if_true]
    constructor
    · rintro ⟨w, hw⟩
      rcases List.mem_map.mp hw with ⟨p, hpd, hfp⟩
      by_cases hpk : p.1 = k
      · rw [if_pos hpk] at hfp
        have hk1 : p.1 = k' := congrArg Prod.fst hfp
        left
        exact ⟨p.2, by rw [← hk1]; simpa using hpd⟩
      · rw [if_neg hpk] at hfp
        left
        exact ⟨w, hfp ▸ hpd⟩
    · rintro (⟨w, hw⟩ | rfl)
      · by_cases hk : k' = k
        · subst hk
          refine ⟨v, List.mem_map.mpr ⟨(k', w), hw, ?_⟩⟩
          simp
        · refine ⟨w, List.mem_map.mpr ⟨(k', w), hw, ?_⟩⟩
          simp [hk]
      · rcases List.any_eq_true.mp hp with ⟨p, hpd, hpk⟩
        have hpk' : p.1 = k' := of_decide_eq_true hpk
        refine ⟨v, List.mem_map.mpr ⟨p, hpd, ?_⟩⟩
        simp [hpk']
  · simp only [hp, if_false, Bool.false_eq_true]
    constructor
    · rintro ⟨w, hw⟩
      rcases List.mem_append.mp hw with h | h
      · exact Or.inl ⟨w, h⟩
      · right
        have := List.mem_singleton.mp h
        exact congrArg Prod.fst this
    · rintro (⟨w, hw⟩ | rfl)
      · exact ⟨w, List.mem_append.mpr (Or.inl hw)⟩
      · exact ⟨v, List.mem_append.mpr (Or.inr (List.mem_singleton.mpr rfl))⟩

theorem hasKey_foldl (toks : List (List Char))
    (d : List (List Char × List Char)) (k : List Char) :
    HasKey (toks.foldl dictStep d) k ↔
      (HasKey d k ∨ ∃ kv ∈ toks.filterMap tokenField, kv.1 = k) := by
  induction toks generalizing d with
  | nil => simp
  | cons t ts ih =>
    have hfold : (t :: ts).foldl dictStep d = ts.foldl dictStep (dictStep d t) :=
      rfl
    rw [hfold, ih]
    cases htf : tokenField t with
    | none =>
      simp [dictStep, htf, List.filterMap_cons, htf]
    | some kv =>
      rcases kv with ⟨k0, v0⟩
      simp only [dictStep, htf, List.filterMap_cons]
      rw [hasKey_dictInsert]
      constructor
      · rintro ((h | rfl) | h)
        · exact Or.inl h
        · exact Or.inr ⟨(k, v0), List.mem_cons_self _ _, rfl⟩
        · rcases h with ⟨kv, hkv, hk⟩
          exact Or.inr ⟨kv, List.mem_cons_of_mem _ hkv, hk⟩
      · rintro (h | ⟨kv, hkv, hk⟩)
        · exact Or.inl (Or.inl h)
        · rcases List.mem_cons.mp hkv with rfl | hmem
          · exact Or.inl (Or.inr hk.symm)
          · exact Or.inr ⟨kv, hmem, hk⟩

theorem foldl_no_valid (toks : List (List Char))
    (d : List (List Char × List Char))
    (h : ∀ t ∈ toks, tokenField t = none) :
    toks.foldl dictStep d = d := by
  induction toks generalizing d with
  | nil => rfl
  | cons t ts ih =>
    have ht : tokenField t = none := h t (List.mem_cons_self _ _)
    have hstep : dictStep d t = d := by simp [dictStep, ht]
    calc (t :: ts).foldl dictStep d = ts.foldl dictStep (dictStep d t) := rfl
      _ = ts.foldl dictStep d := by rw [hstep]
      _ = d := ih d (fun u hu => h u (List.mem_cons_of_mem _ hu))

/-- Claim C2: a line with at least one KEY:VALUE token whose value
parses as a float yields a reading whose keys are exactly the mapped
keys of the successfully converted tokens (T→temperature, H→humidity,
P→pressure, WS→windspeed; unrecognized keys lower-cased as-is), with
failing tokens skipped rather than fatal; in particular
parse "T:abc H:50.1" = {humidity: 50.1}. -/
theorem c2_parse_valid_tokens (line : List Char)
    (h : validTokens line ≠ []) :
    (∃ d, parse_weather_data_us line = some d ∧
      (∀ k, HasKey d k ↔ ∃ kv ∈ validTokens line, kv.1 = k)) ∧
    parse_weather_data_us "T:abc H:50.1".data
      = some [("humidity".data, "50.1".data)] := by
  constructor
  · have hs : stripChars line ≠ [] := by
      intro hnil
      apply h
      unfold validTokens
      rw [hnil]
      rfl
    rcases List.exists_mem_of_ne_nil _ h with ⟨kv0, hkv0⟩
    have hkeys := fun k => hasKey_foldl (splitChar ' ' (stripChars line)) [] k
    have hne : (splitChar ' ' (stripChars line)).foldl dictStep [] ≠ [] := by
      intro hnil
      have := (hkeys kv0.1).mpr (Or.inr ⟨kv0, hkv0, rfl⟩)
      rw [hnil] at this
      rcases this with ⟨w, hw⟩
      exact List.not_mem_nil _ hw
    refine ⟨(splitChar ' ' (stripChars line)).foldl dictStep [], ?_, ?_⟩
    · unfold parse_weather_data_us
      simp only [if_neg hs, if_neg hne]
    · intro k
      rw [hkeys k]
      unfold validTokens
      constructor
      · rintro (⟨w, hw⟩ | h2)
        · exact absurd hw (List.not_mem_nil _)
        · exact h2
      · exact fun h2 => Or.inr h2
  · rfl

/-- Witness for C2 at the spec's example line. -/
theorem c2_parse_valid_tokens_wit :
    (validTokens "T:abc H:50.1".data ≠ []) ∧
    (∃ d, parse_weather_data_us "T:abc H:50.1".data = some d ∧
      (∀ k, HasKey d k ↔ ∃ kv ∈ validTokens "T:abc H:50.1".data, kv.1 = k)) := by
  have h0 : validTokens "T:abc H:50.1".data ≠ [] := by decide
  exact ⟨h0, (c2_parse_valid_tokens "T:abc H:50.1".data h0).1⟩

/-- Claim C3: the parser is total and never raises; every line with no
successfully-converted token yields no reading, in particular
"garbage" and "". -/
theorem c3_parse_no_reading (line : List Char)
    (h : validTokens line = []) :
    parse_weather_data_us line = none ∧
    parse_weather_data_us "garbage".data = none ∧
    parse_weather_data_us "".data = none := by
  refine ⟨?_, rfl, rfl⟩
  unfold parse_weather_data_us
  by_cases hs : stripChars line = []
  · rw [if_pos hs]
  · have hall : ∀ t ∈ splitChar ' ' (stripChars line), tokenField t = none := by
      intro t ht
      by_contra hne
      cases htf : tokenField t with
      | none => exact hne htf
      | some kv =>
        have : kv ∈ validTokens line :=
          List.mem_filterMap.mpr ⟨t, ht, htf⟩
        rw [h] at this
        exact List.not_mem_nil _ this
    rw [foldl_no_valid _ [] hall]
    simp [hs]

/-- Witness for C3 on the line "garbage". -/
theorem c3_parse_no_reading_wit :
    (validTokens "garbage".data = []) ∧
    parse_weather_data_us "garbage".data = none := by
  have h0 : validTokens "garbage".data = [] := by decide
  exact ⟨h0, (c3_parse_no_reading "garbage".data h0).1⟩

/-- Greedy consumption of the `\.?\d*` tail of the number pattern:
if the input starts with a dot, the dot and the following digit run
are matched, else nothing is. -/
def dotSplit (t : List Char) : List Char × List Char :=
  match t with
  | c :: r2 =>
    if c = '.' then
      ('.' :: r2.takeWhile isAsciiDigit, r2.dropWhile isAsciiDigit)
    else ([], t)
  | [] => ([], t)

/-- Greedy match of `\d+\.?\d*` at the head of the input: one or more
digits, an optional dot, then any digits; returns the matched group
and the rest.  In the daemon's pattern every occurrence is followed by
`\s+` or by nothing, and a backtracked shorter match always leaves a
digit or a dot at the head of the rest, which `\s+` rejects, so the
greedy result coincides with full regex matching. -/
def numTok (cs : List Char) : Option (List Char × List Char) :=
  if cs.takeWhile isAsciiDigit = [] then none
  else
    some (cs.takeWhile isAsciiDigit
        ++ (dotSplit (cs.dropWhile isAsciiDigit)).1,
      (dotSplit (cs.dropWhile isAsciiDigit)).2)

/-- Literal prefix of a regex. -/
def litTok : List Char → List Char → Option (List Char)
  | [], cs => some cs
  | _ :: _, [] => none
  | p :: ps, c :: cs => if c = p then litTok ps cs else none

/-- Greedy match of `\s+`. -/
def wsTok : List Char → Option (List Char)
  | c :: rest => if pySpace c then some (rest.dropWhile pySpace) else none
  | [] => none

/-- The full pattern of src/weather-daemon.py line 183 anchored at the
current position, returning the four captured groups. -/
def matchAt (cs : List Char) :
    Option (List Char × List Char × List Char × List Char) :=
  (litTok ['T', ':'] cs).bind fun r0 =>
  (numTok r0).bind fun p1 =>
  (wsTok p1.2).bind fun r2 =>
  (litTok ['H', ':'] r2).bind fun r3 =>
  (numTok r3).bind fun p2 =>
  (wsTok p2.2).bind fun r5 =>
  (litTok ['P', ':'] r5).bind fun r6 =>
  (numTok r6).bind fun p3 =>
  (wsTok p3.2).bind fun r8 =>
  (litTok ['W', 'S', ':'] r8).bind fun r9 =>
  (numTok r9).bind fun p4 =>
  some (p1.1, p2.1, p3.1, p4.1)

/-- Python `re.search`: try the pattern at every position, leftmost
first.  The pattern cannot match an empty suffix, so stopping after
the last character is equivalent. -/
def reSearch : List Char →
    Option (List Char × List Char × List Char × List Char)
  | [] => none
  | c :: rest =>
    match matchAt (c :: rest) with
    | some g => some g
    | none => reSearch rest

/-- Embeds `WeatherDaemon.parse_weather_data`
(src/weather-daemon.py 180-193): on a regex match, a dict with exactly
the four fields built from the captured groups (raw strings standing
in for the floats); otherwise no reading. -/
def parse_weather_data_re (line : List Char) :
    Option (List (List Char × List Char)) :=
  match reSearch line with
  | some (n1, n2, n3, n4) =>
    some [("temperature".data, n1), ("humidity".data, n2),
      ("pressure".data, n3), ("wind_speed".data, n4)]
  | none => none

/-- A complete token of `\d+\.?\d*`. -/
def isNumStr (n : List Char) : Bool :=
  match numTok n with
  | some (_, rest) => rest.isEmpty
  | none => false

/-- The containment relation claim C9 literally states: the line holds
the four keys in order, each directly followed by a number token, with
arbitrary text in between and around them. -/
def ClaimContains (s : List Char) : Prop :=
  ∃ a n1 b n2 c n3 d n4 e,
    s = a ++ ('T' :: ':' :: n1) ++ b ++ ('H' :: ':' :: n2) ++ c
      ++ ('P' :: ':' :: n3) ++ d ++ ('W' :: 'S' :: ':' :: n4) ++ e
    ∧ isNumStr n1 ∧ isNumStr n2 ∧ isNumStr n3 ∧ isNumStr n4

/-- The faithful acceptance condition of the regex: the four tokens
occur contiguously, separated by nonempty whitespace runs. -/
def RegexContains (s : List Char) : Prop :=
  ∃ a n1 w1 n2 w2 n3 w3 n4 e,
    s = a ++ ('T' :: ':' :: n1) ++ w1 ++ ('H' :: ':' :: n2) ++ w2
      ++ ('P' :: ':' :: n3) ++ w3 ++ ('W' :: 'S' :: ':' :: n4) ++ e
    ∧ isNumStr n1 ∧ isNumStr n2 ∧ isNumStr n3 ∧ isNumStr n4
    ∧ w1 ≠ [] ∧ w1.all pySpace
    ∧ w2 ≠ [] ∧ w2.all pySpace
    ∧ w3 ≠ [] ∧ w3.all pySpace

/-- Counterexample to claim C9 as stated: "T:1 X:2 H:2 P:3 WS:4"
contains the four keys in order, each directly followed by a number,
yet the parser returns no reading: the regex additionally requires the
four tokens to be adjacent, separated by whitespace only, and the
stray token "X:2" breaks that. -/
theorem c9_claim_cex :
    ClaimContains "T:1 X:2 H:2 P:3 WS:4".data ∧
    parse_weather_data_re "T:1 X:2 H:2 P:3 WS:4".data = none := by
  constructor
  · refine ⟨[], ['1'], [' ', 'X', ':', '2', ' '], ['2'], [' '], ['3'],
      [' '], ['4'], [], ?_, ?_, ?_, ?_, ?_⟩
    · decide
    · decide
    · decide
    · decide
    · decide
  · rfl

theorem litTok_decomp : ∀ (pat cs r : List Char),
    litTok pat cs = some r → cs = pat ++ r := by
  intro pat
  induction pat with
  | nil =>
    intro cs r h
    simp [litTok] at h
    simp [h]
  | cons p ps ih =>
    intro cs r h
    cases cs with
    | nil => simp [litTok] at h
    | cons c cs' =>
      by_cases hc : c = p
      · simp only [litTok, if_pos hc] at h
        rw [hc, List.cons_append]
        rw [ih cs' r h]
      · simp [litTok, hc] at h

theorem takeWhile_append_of_all {p : α → Bool} (xs ys : List α)
    (h : ∀ x ∈ xs, p x) :
    (xs ++ ys).takeWhile p = xs ++ ys.takeWhile p := by
  induction xs with
  | nil => simp
  | cons x xs ih =>
    have hx : p x := h x (List.mem_cons_self _ _)
    simp only [List.cons_append, List.takeWhile_cons, hx, if_true]
    rw [ih (fun y hy => h y (List.mem_cons_of_mem _ hy))]

theorem dropWhile_append_of_all {p : α → Bool} (xs ys : List α)
    (h : ∀ x ∈ xs, p x) :
    (xs ++ ys).dropWhile p = ys.dropWhile p := by
  induction xs with
  | nil => simp
  | cons x xs ih =>
    have hx : p x := h x (List.mem_cons_self _ _)
    simp only [List.cons_append, List.dropWhile_cons, hx, if_true]
    exact ih (fun y hy => h y (List.mem_cons_of_mem _ hy))

theorem takeWhile_nil_of_head {p : α → Bool} (t : List α)
    (h : ∀ c, t.head? = some c → ¬ p c) : t.takeWhile p = [] := by
  cases t with
  | nil => rfl
  | cons c t' =>
    have : ¬ p c := h c rfl
    simp [List.takeWhile_cons, this]

theorem dropWhile_self_of_head {p : α → Bool} (t : List α)
    (h : ∀ c, t.head? = some c → ¬ p c) : t.dropWhile p = t := by
  cases t with
  | nil => rfl
  | cons c t' =>
    have : ¬ p c := h c rfl
    simp [List.dropWhile_cons, this]


theorem all_takeWhile {p : α → Bool} (xs : List α) :
    ∀ x ∈ xs.takeWhile p, p x := by
  induction xs with
  | nil => intro x hx; simp at hx
  | cons c xs ih =>
    intro x hx
    by_cases hc : p c
    · simp only [List.takeWhile_cons, hc, if_true] at hx
      rcases List.mem_cons.mp hx with rfl | hmem
      · exact hc
      · exact ih x hmem
    · simp [List.takeWhile_cons, hc] at hx

theorem dotSplit_append (t : List Char) :
    (dotSplit t).1 ++ (dotSplit t).2 = t := by
  cases t with
  | nil => rfl
  | cons c r2 =>
    by_cases hc : c = '.'
    · subst hc
      simp [dotSplit, List.takeWhile_append_dropWhile]
    · simp [dotSplit, hc]

theorem litTok_prefix : ∀ (pat r : List Char), litTok pat (pat ++ r) = some r := by
  intro pat
  induction pat with
  | nil => intro r; rfl
  | cons p ps ih =>
    intro r
    simp only [List.cons_append, litTok, if_pos rfl]
    exact ih r

theorem head_dropWhile_not {p : α → Bool} (l : List α) :
    ∀ c, (l.dropWhile p).head? = some c → ¬ p c := by
  induction l with
  | nil => intro c hc; simp at hc
  | cons x xs ih =>
    intro c hc
    by_cases hx : p x
    · rw [List.dropWhile_cons, if_pos hx] at hc
      exact ih c hc
    · rw [List.dropWhile_cons, if_neg hx] at hc
      simp at hc
      subst hc
      exact hx

theorem numTok_eval_nodot (d1 t : List Char)
    (hd1 : ∀ x ∈ d1, isAsciiDigit x) (hne : d1 ≠ [])
    (ht : ∀ c, t.head? = some c → ¬ isAsciiDigit c ∧ c ≠ '.') :
    numTok (d1 ++ t) = some (d1, t) := by
  have htw : (d1 ++ t).takeWhile isAsciiDigit = d1 := by
    rw [takeWhile_append_of_all _ _ hd1,
      takeWhile_nil_of_head t (fun c hc => (ht c hc).1), List.append_nil]
  have hdw : (d1 ++ t).dropWhile isAsciiDigit = t := by
    rw [dropWhile_append_of_all _ _ hd1,
      dropWhile_self_of_head t (fun c hc => (ht c hc).1)]
  have hds : dotSplit t = ([], t) := by
    cases t with
    | nil => rfl
    | cons c t' =>
      have hc := ht c rfl
      simp [dotSplit, hc.2]
  unfold numTok
  rw [htw, hdw, if_neg hne, hds]
  simp

theorem numTok_eval_dot (d1 d2 t : List Char)
    (hd1 : ∀ x ∈ d1, isAsciiDigit x) (hne : d1 ≠ [])
    (hd2 : ∀ x ∈ d2, isAsciiDigit x)
    (ht : ∀ c, t.head? = some c → ¬ isAsciiDigit c) :
    numTok (d1 ++ '.' :: (d2 ++ t)) = some (d1 ++ '.' :: d2, t) := by
  have hdotd : ¬ isAsciiDigit '.' := by decide
  have htw : (d1 ++ '.' :: (d2 ++ t)).takeWhile isAsciiDigit = d1 := by
    rw [takeWhile_append_of_all _ _ hd1]
    simp [List.takeWhile_cons, hdotd]
  have hdw : (d1 ++ '.' :: (d2 ++ t)).dropWhile isAsciiDigit
      = '.' :: (d2 ++ t) := by
    rw [dropWhile_append_of_all _ _ hd1]
    simp [List.dropWhile_cons, hdotd]
  have hds : dotSplit ('.' :: (d2 ++ t))
      = ('.' :: d2, t) := by
    simp only [dotSplit, if_pos rfl]
    rw [takeWhile_append_of_all _ _ hd2,
      takeWhile_nil_of_head t ht, List.append_nil,
      dropWhile_append_of_all _ _ hd2,
      dropWhile_self_of_head t ht]
    simp
  unfold numTok
  rw [htw, hdw, if_neg hne, hds]

theorem isNumStr_digits (d1 : List Char)
    (hd1 : ∀ x ∈ d1, isAsciiDigit x) (hne : d1 ≠ []) :
    isNumStr d1 := by
  unfold isNumStr
  have h := numTok_eval_nodot d1 [] hd1 hne (fun c hc => by simp at hc)
  rw [List.append_nil] at h
  rw [h]
  rfl

theorem isNumStr_dot (d1 d2 : List Char)
    (hd1 : ∀ x ∈ d1, isAsciiDigit x) (hne : d1 ≠ [])
    (hd2 : ∀ x ∈ d2, isAsciiDigit x) :
    isNumStr (d1 ++ '.' :: d2) := by
  unfold isNumStr
  have h := numTok_eval_dot d1 d2 [] hd1 hne hd2 (fun c hc => by simp at hc)
  rw [List.append_nil] at h
  rw [h]
  rfl

theorem numTok_decomp (cs m r : List Char)
    (h : numTok cs = some (m, r)) :
    cs = m ++ r ∧ isNumStr m ∧ m ≠ [] := by
  unfold numTok at h
  by_cases h1 : cs.takeWhile isAsciiDigit = []
  · rw [if_pos h1] at h; simp at h
  · rw [if_neg h1] at h
    simp only [Option.some.injEq, Prod.mk.injEq] at h
    rcases h with ⟨hm, hr⟩
    subst hm; subst hr
    have hd1 : ∀ x ∈ cs.takeWhile isAsciiDigit, isAsciiDigit x :=
      all_takeWhile cs
    refine ⟨by rw [List.append_assoc, dotSplit_append,
        List.takeWhile_append_dropWhile], ?_, ?_⟩
    · cases hdw : cs.dropWhile isAsciiDigit with
      | nil =>
        simp only [hdw, dotSplit, List.append_nil]
        exact isNumStr_digits _ hd1 h1
      | cons c0 r2 =>
        by_cases hc0 : c0 = '.'
        · subst hc0
          simp only [hdw, dotSplit, if_pos rfl]
          exact isNumStr_dot _ _ hd1 h1 (all_takeWhile r2)
        · simp only [hdw, dotSplit, if_neg hc0, List.append_nil]
          exact isNumStr_digits _ hd1 h1
    · intro hz
      rcases List.append_eq_nil.mp hz with ⟨hz1, _⟩
      exact h1 hz1

theorem numStr_shape (n : List Char) (hn : isNumStr n) :
    ((∀ x ∈ n, isAsciiDigit x) ∧ n ≠ []) ∨
    (∃ d1 d2, n = d1 ++ '.' :: d2 ∧ d1 ≠ [] ∧
      (∀ x ∈ d1, isAsciiDigit x) ∧ (∀ x ∈ d2, isAsciiDigit x)) := by
  unfold isNumStr at hn
  cases hnum : numTok n with
  | none => rw [hnum] at hn; simp at hn
  | some p =>
    rw [hnum] at hn
    rcases p with ⟨m, rest⟩
    have hrest : rest = [] := by
      simpa [List.isEmpty_iff] using hn
    subst hrest
    unfold numTok at hnum
    by_cases h1 : n.takeWhile isAsciiDigit = []
    · rw [if_pos h1] at hnum; simp at hnum
    · rw [if_neg h1] at hnum
      simp only [Option.some.injEq, Prod.mk.injEq] at hnum
      rcases hnum with ⟨_, hr⟩
      have hd1 : ∀ x ∈ n.takeWhile isAsciiDigit, isAsciiDigit x :=
        all_takeWhile n
      have hsplit := List.takeWhile_append_dropWhile
        (p := isAsciiDigit) (l := n)
      cases hdw : n.dropWhile isAsciiDigit with
      | nil =>
        left
        have hnn : n.takeWhile isAsciiDigit = n := by
          rw [hdw] at hsplit; simpa using hsplit
        rw [← hnn]
        exact ⟨hd1, fun hz => h1 (by rw [hnn]; exact hnn ▸ hz)⟩
      | cons c0 r2 =>
        by_cases hc0 : c0 = '.'
        · subst hc0
          right
          refine ⟨n.takeWhile isAsciiDigit, r2, ?_, h1, hd1, ?_⟩
          · conv_lhs => rw [← hsplit]
            rw [hdw]
          · have : r2.dropWhile isAsciiDigit = [] := by
              rw [hdw] at hr
              simpa [dotSplit] using hr
            have hr2 : r2.takeWhile isAsciiDigit = r2 := by
              have h2 := List.takeWhile_append_dropWhile
                (p := isAsciiDigit) (l := r2)
              rw [this] at h2
              simpa using h2
            rw [← hr2]
            exact all_takeWhile r2
        · exfalso
          rw [hdw] at hr
          simp [dotSplit, hc0] at hr

theorem numTok_prefix (n t : List Char) (hn : isNumStr n)
    (ht : ∀ c, t.head? = some c → ¬ isAsciiDigit c ∧ c ≠ '.') :
    numTok (n ++ t) = some (n, t) := by
  rcases numStr_shape n hn with ⟨hall, hne⟩ | ⟨d1, d2, rfl, hne, hd1, hd2⟩
  · exact numTok_eval_nodot n t hall hne ht
  · rw [List.append_assoc, List.cons_append]
    exact numTok_eval_dot d1 d2 t hd1 hne hd2 (fun c hc => (ht c hc).1)

theorem numTok_head_digit (n : List Char) (hn : isNumStr n) :
    ∃ c t', n = c :: t' ∧ isAsciiDigit c := by
  rcases numStr_shape n hn with ⟨hall, hne⟩ | ⟨d1, d2, rfl, hne, hd1, _⟩
  · cases n with
    | nil => exact absurd rfl hne
    | cons c t' => exact ⟨c, t', rfl, hall c (List.mem_cons_self _ _)⟩
  · cases d1 with
    | nil => exact absurd rfl hne
    | cons c d1' =>
      exact ⟨c, d1' ++ '.' :: d2, rfl, hd1 c (List.mem_cons_self _ _)⟩

theorem numTok_isSome_of_digit (c : Char) (t : List Char)
    (hc : isAsciiDigit c) : (numTok (c :: t)).isSome := by
  unfold numTok
  have : (c :: t).takeWhile isAsciiDigit = c :: t.takeWhile isAsciiDigit := by
    simp [List.takeWhile_cons, hc]
  rw [this, if_neg (List.cons_ne_nil _ _)]
  rfl

theorem wsTok_decomp (cs r : List Char) (h : wsTok cs = some r) :
    ∃ w, cs = w ++ r ∧ w ≠ [] ∧ w.all pySpace := by
  cases cs with
  | nil => simp [wsTok] at h
  | cons c rest =>
    by_cases hc : pySpace c
    · simp only [wsTok, if_pos hc, Option.some.injEq] at h
      refine ⟨c :: rest.takeWhile pySpace, ?_, List.cons_ne_nil _ _, ?_⟩
      · rw [← h, List.cons_append, List.takeWhile_append_dropWhile]
      · rw [List.all_cons, Bool.and_eq_true]
        exact ⟨hc, List.all_eq_true.mpr (all_takeWhile rest)⟩
    · simp [wsTok, hc] at h

theorem wsTok_prefix (w t : List Char) (hne : w ≠ []) (hw : w.all pySpace)
    (ht : ∀ c, t.head? = some c → ¬ pySpace c) :
    wsTok (w ++ t) = some t := by
  cases w with
  | nil => exact absurd rfl hne
  | cons c w' =>
    rw [List.all_cons, Bool.and_eq_true] at hw
    rcases hw with ⟨hc, hw'⟩
    simp only [List.cons_append, wsTok, if_pos hc, Option.some.injEq]
    rw [dropWhile_append_of_all _ _ (fun x hx => List.all_eq_true.mp hw' x hx),
      dropWhile_self_of_head t ht]

theorem pySpace_not_digit_dot (c : Char) (hc : pySpace c) :
    ¬ isAsciiDigit c ∧ c ≠ '.' := by
  unfold pySpace at hc
  rcases Bool.or_eq_true_iff.mp hc with h | h
  · rcases Bool.or_eq_true_iff.mp h with h | h
    · rcases Bool.or_eq_true_iff.mp h with h | h
      · rcases Bool.or_eq_true_iff.mp h with h | h
        · rcases Bool.or_eq_true_iff.mp h with h | h
          · have : c = ' ' := by simpa using h
            subst this; exact ⟨by decide, by decide⟩
          · have : c = '\t' := by simpa using h
            subst this; exact ⟨by decide, by decide⟩
        · have : c = '\n' := by simpa using h
          subst this; exact ⟨by decide, by decide⟩
      · have : c = '\r' := by simpa using h
        subst this; exact ⟨by decide, by decide⟩
    · have : c = '\x0b' := by simpa using h
      subst this; exact ⟨by decide, by decide⟩
  · have : c = '\x0c' := by simpa using h
    subst this; exact ⟨by decide, by decide⟩

theorem head_append_of_ne_nil (w t : List Char) (hne : w ≠ []) :
    (w ++ t).head? = w.head? := by
  cases w with
  | nil => exact absurd rfl hne
  | cons c w' => rfl

theorem head_ws_cond (w t : List Char) (hne : w ≠ []) (hw : w.all pySpace) :
    ∀ c, (w ++ t).head? = some c → ¬ isAsciiDigit c ∧ c ≠ '.' := by
  intro c hc
  rw [head_append_of_ne_nil _ _ hne] at hc
  cases w with
  | nil => exact absurd rfl hne
  | cons c0 w' =>
    simp only [List.head?_cons, Option.some.injEq] at hc
    subst hc
    rw [List.all_cons, Bool.and_eq_true] at hw
    exact pySpace_not_digit_dot _ hw.1

theorem head_cons_not_ws (c0 : Char) (t : List Char) (h : ¬ pySpace c0) :
    ∀ c, (c0 :: t).head? = some c → ¬ pySpace c := by
  intro c hc
  simp only [List.head?_cons, Option.some.injEq] at hc
  subst hc
  exact h

theorem matchAt_decomp (cs n1 n2 n3 n4 : List Char)
    (h : matchAt cs = some (n1, n2, n3, n4)) :
    ∃ w1 w2 w3 e,
      cs = ('T' :: ':' :: n1) ++ w1 ++ ('H' :: ':' :: n2) ++ w2
        ++ ('P' :: ':' :: n3) ++ w3 ++ ('W' :: 'S' :: ':' :: n4) ++ e
      ∧ isNumStr n1 ∧ isNumStr n2 ∧ isNumStr n3 ∧ isNumStr n4
      ∧ w1 ≠ [] ∧ w1.all pySpace ∧ w2 ≠ [] ∧ w2.all pySpace
      ∧ w3 ≠ [] ∧ w3.all pySpace := by
  unfold matchAt at h
  rcases Option.bind_eq_some.mp h with ⟨r0, hT, h⟩
  rcases Option.bind_eq_some.mp h with ⟨p1, hp1, h⟩
  rcases Option.bind_eq_some.mp h with ⟨r2, hws1, h⟩
  rcases Option.bind_eq_some.mp h with ⟨r3, hH, h⟩
  rcases Option.bind_eq_some.mp h with ⟨p2, hp2, h⟩
  rcases Option.bind_eq_some.mp h with ⟨r5, hws2, h⟩
  rcases Option.bind_eq_some.mp h with ⟨r6, hP, h⟩
  rcases Option.bind_eq_some.mp h with ⟨p3, hp3, h⟩
  rcases Option.bind_eq_some.mp h with ⟨r8, hws3, h⟩
  rcases Option.bind_eq_some.mp h with ⟨r9, hWS, h⟩
  rcases Option.bind_eq_some.mp h with ⟨p4, hp4, h⟩
  rcases p1 with ⟨m1, q1⟩
  rcases p2 with ⟨m2, q2⟩
  rcases p3 with ⟨m3, q3⟩
  rcases p4 with ⟨m4, q4⟩
  simp only [Option.some.injEq, Prod.mk.injEq] at h
  rcases h with ⟨e1, e2, e3, e4⟩
  subst e1; subst e2; subst e3; subst e4
  rcases numTok_decomp _ _ _ hp1 with ⟨hr0, hnum1, _⟩
  rcases numTok_decomp _ _ _ hp2 with ⟨hr3, hnum2, _⟩
  rcases numTok_decomp _ _ _ hp3 with ⟨hr6, hnum3, _⟩
  rcases numTok_decomp _ _ _ hp4 with ⟨hr9, hnum4, _⟩
  rcases wsTok_decomp _ _ hws1 with ⟨w1, hq1, hw1, hw1s⟩
  rcases wsTok_decomp _ _ hws2 with ⟨w2, hq2, hw2, hw2s⟩
  rcases wsTok_decomp _ _ hws3 with ⟨w3, hq3, hw3, hw3s⟩
  have hq1' : q1 = w1 ++ r2 := hq1
  have hq2' : q2 = w2 ++ r5 := hq2
  have hq3' : q3 = w3 ++ r8 := hq3
  have hcs := litTok_decomp _ _ _ hT
  have hr2 := litTok_decomp _ _ _ hH
  have hr5 := litTok_decomp _ _ _ hP
  have hr8 := litTok_decomp _ _ _ hWS
  refine ⟨w1, w2, w3, q4, ?_, hnum1, hnum2, hnum3, hnum4,
    hw1, hw1s, hw2, hw2s, hw3, hw3s⟩
  rw [hcs, hr0, hq1', hr2, hr3, hq2', hr5, hr6, hq3', hr8, hr9]
  simp [List.append_assoc]

theorem matchAt_assemble (n1 w1 n2 w2 n3 w3 n4 e : List Char)
    (h1 : isNumStr n1) (h2 : isNumStr n2) (h3 : isNumStr n3)
    (h4 : isNumStr n4)
    (hw1 : w1 ≠ []) (hw1s : w1.all pySpace)
    (hw2 : w2 ≠ []) (hw2s : w2.all pySpace)
    (hw3 : w3 ≠ []) (hw3s : w3.all pySpace) :
    (matchAt (('T' :: ':' :: n1) ++ w1 ++ ('H' :: ':' :: n2) ++ w2
      ++ ('P' :: ':' :: n3) ++ w3
      ++ ('W' :: 'S' :: ':' :: n4) ++ e)).isSome := by
  have eT : litTok ['T', ':']
      ('T' :: ':' :: (n1 ++ (w1 ++ ('H' :: ':' :: (n2 ++ (w2
        ++ ('P' :: ':' :: (n3 ++ (w3
        ++ ('W' :: 'S' :: ':' :: (n4 ++ e))))))))))) =
      some (n1 ++ (w1 ++ ('H' :: ':' :: (n2 ++ (w2
        ++ ('P' :: ':' :: (n3 ++ (w3
        ++ ('W' :: 'S' :: ':' :: (n4 ++ e)))))))))) :=
    litTok_prefix ['T', ':'] _
  have e1 : numTok (n1 ++ (w1 ++ ('H' :: ':' :: (n2 ++ (w2
        ++ ('P' :: ':' :: (n3 ++ (w3
        ++ ('W' :: 'S' :: ':' :: (n4 ++ e)))))))))) =
      some (n1, w1 ++ ('H' :: ':' :: (n2 ++ (w2
        ++ ('P' :: ':' :: (n3 ++ (w3
        ++ ('W' :: 'S' :: ':' :: (n4 ++ e))))))))) :=
    numTok_prefix n1 _ h1 (head_ws_cond w1 _ hw1 hw1s)
  have eW1 : wsTok (w1 ++ ('H' :: ':' :: (n2 ++ (w2
        ++ ('P' :: ':' :: (n3 ++ (w3
        ++ ('W' :: 'S' :: ':' :: (n4 ++ e))))))))) =
      some ('H' :: ':' :: (n2 ++ (w2
        ++ ('P' :: ':' :: (n3 ++ (w3
        ++ ('W' :: 'S' :: ':' :: (n4 ++ e)))))))) :=
    wsTok_prefix w1 _ hw1 hw1s (head_cons_not_ws 'H' _ (by decide))
  have eH : litTok ['H', ':'] ('H' :: ':' :: (n2 ++ (w2
        ++ ('P' :: ':' :: (n3 ++ (w3
        ++ ('W' :: 'S' :: ':' :: (n4 ++ e)))))))) =
      some (n2 ++ (w2 ++ ('P' :: ':' :: (n3 ++ (w3
        ++ ('W' :: 'S' :: ':' :: (n4 ++ e))))))) :=
    litTok_prefix ['H', ':'] _
  have e2 : numTok (n2 ++ (w2 ++ ('P' :: ':' :: (n3 ++ (w3
        ++ ('W' :: 'S' :: ':' :: (n4 ++ e))))))) =
      some (n2, w2 ++ ('P' :: ':' :: (n3 ++ (w3
        ++ ('W' :: 'S' :: ':' :: (n4 ++ e)))))) :=
    numTok_prefix n2 _ h2 (head_ws_cond w2 _ hw2 hw2s)
  have eW2 : wsTok (w2 ++ ('P' :: ':' :: (n3 ++ (w3
        ++ ('W' :: 'S' :: ':' :: (n4 ++ e)))))) =
      some ('P' :: ':' :: (n3 ++ (w3
        ++ ('W' :: 'S' :: ':' :: (n4 ++ e))))) :=
    wsTok_prefix w2 _ hw2 hw2s (head_cons_not_ws 'P' _ (by decide))
  have eP : litTok ['P', ':'] ('P' :: ':' :: (n3 ++ (w3
        ++ ('W' :: 'S' :: ':' :: (n4 ++ e))))) =
      some (n3 ++ (w3 ++ ('W' :: 'S' :: ':' :: (n4 ++ e)))) :=
    litTok_prefix ['P', ':'] _
  have e3 : numTok (n3 ++ (w3 ++ ('W' :: 'S' :: ':' :: (n4 ++ e)))) =
      some (n3, w3 ++ ('W' :: 'S' :: ':' :: (n4 ++ e))) :=
    numTok_prefix n3 _ h3 (head_ws_cond w3 _ hw3 hw3s)
  have eW3 : wsTok (w3 ++ ('W' :: 'S' :: ':' :: (n4 ++ e))) =
      some ('W' :: 'S' :: ':' :: (n4 ++ e)) :=
    wsTok_prefix w3 _ hw3 hw3s (head_cons_not_ws 'W' _ (by decide))
  have eWS : litTok ['W', 'S', ':'] ('W' :: 'S' :: ':' :: (n4 ++ e)) =
      some (n4 ++ e) :=
    litTok_prefix ['W', 'S', ':'] _
  have e4 : (numTok (n4 ++ e)).isSome := by
    rcases numTok_head_digit n4 h4 with ⟨c, t', hn, hc⟩
    rw [hn, List.cons_append]
    exact numTok_isSome_of_digit c (t' ++ e) hc
  have hshape : ('T' :: ':' :: n1) ++ w1 ++ ('H' :: ':' :: n2) ++ w2
      ++ ('P' :: ':' :: n3) ++ w3 ++ ('W' :: 'S' :: ':' :: n4) ++ e
      = 'T' :: ':' :: (n1 ++ (w1 ++ ('H' :: ':' :: (n2 ++ (w2
        ++ ('P' :: ':' :: (n3 ++ (w3
        ++ ('W' :: 'S' :: ':' :: (n4 ++ e)))))))))) := by
    simp [List.append_assoc]
  rw [hshape]
  unfold matchAt
  rw [eT, Option.some_bind, e1, Option.some_bind]
  rw [show ((n1, w1 ++ ('H' :: ':' :: (n2 ++ (w2
      ++ ('P' :: ':' :: (n3 ++ (w3
      ++ ('W' :: 'S' :: ':' :: (n4 ++ e))))))))) :
      List Char × List Char).2 = w1 ++ ('H' :: ':' :: (n2 ++ (w2
      ++ ('P' :: ':' :: (n3 ++ (w3
      ++ ('W' :: 'S' :: ':' :: (n4 ++ e)))))))) from rfl]
  rw [eW1, Option.some_bind, eH, Option.some_bind, e2, Option.some_bind]
  rw [show ((n2, w2 ++ ('P' :: ':' :: (n3 ++ (w3
      ++ ('W' :: 'S' :: ':' :: (n4 ++ e)))))) :
      List Char × List Char).2 = w2 ++ ('P' :: ':' :: (n3 ++ (w3
      ++ ('W' :: 'S' :: ':' :: (n4 ++ e))))) from rfl]
  rw [eW2, Option.some_bind, eP, Option.some_bind, e3, Option.some_bind]
  rw [show ((n3, w3 ++ ('W' :: 'S' :: ':' :: (n4 ++ e))) :
      List Char × List Char).2 = w3 ++ ('W' :: 'S' :: ':' :: (n4 ++ e))
      from rfl]
  rw [eW3, Option.some_bind, eWS, Option.some_bind]
  cases hnum4 : numTok (n4 ++ e) with
  | none => rw [hnum4] at e4; simp at e4
  | some p4 => rfl

theorem matchAt_nil : matchAt [] = none := rfl

theorem reSearch_decomp (s : List Char)
    (g : List Char × List Char × List Char × List Char)
    (h : reSearch s = some g) :
    ∃ a suffix, s = a ++ suffix ∧ matchAt suffix = some g := by
  induction s with
  | nil => simp [reSearch] at h
  | cons c rest ih =>
    unfold reSearch at h
    cases hm : matchAt (c :: rest) with
    | some g' =>
      rw [hm] at h
      simp only [Option.some.injEq] at h
      subst h
      exact ⟨[], c :: rest, rfl, hm⟩
    | none =>
      rw [hm] at h
      simp only [] at h
      rcases ih h with ⟨a, suffix, heq, hma⟩
      exact ⟨c :: a, suffix, by rw [List.cons_append, heq], hma⟩

theorem reSearch_isSome (a suffix : List Char)
    (h : (matchAt suffix).isSome) : (reSearch (a ++ suffix)).isSome := by
  induction a with
  | nil =>
    cases suffix with
    | nil => rw [matchAt_nil] at h; simp at h
    | cons c rest =>
      rw [List.nil_append]
      unfold reSearch
      cases hm : matchAt (c :: rest) with
      | some g => simp
      | none => rw [hm] at h; simp at h
  | cons c a' ih =>
    rw [List.cons_append]
    unfold reSearch
    cases hm : matchAt (c :: (a' ++ suffix)) with
    | some g => simp
    | none => simpa using ih

/-- Amended claim C9: the core daemon variant's parser returns a
reading exactly when the line contains a contiguous run
`T:n1 H:n2 P:n3 WS:n4` in that order, where each value is one or more
digits optionally followed by a dot and further digits (so unsigned —
no sign, no exponent) and the keys are separated by nonempty
whitespace only; every returned reading has exactly the fields
temperature, humidity, pressure, wind_speed, and a line with a
negative value (or any of the four keys missing) yields no reading. -/
theorem c9_regex_acceptance (line : List Char) :
    ((parse_weather_data_re line).isSome ↔ RegexContains line) ∧
    (∀ d, parse_weather_data_re line = some d →
      d.map Prod.fst = ["temperature".data, "humidity".data,
        "pressure".data, "wind_speed".data]) ∧
    parse_weather_data_re "T:-5.0 H:50.0 P:1000.0 WS:0.0".data = none := by
  refine ⟨⟨?_, ?_⟩, ?_, rfl⟩
  · intro h
    unfold parse_weather_data_re at h
    cases hs : reSearch line with
    | none => rw [hs] at h; simp at h
    | some g =>
      rcases g with ⟨n1, n2, n3, n4⟩
      rcases reSearch_decomp line _ hs with ⟨a, suffix, heq, hm⟩
      rcases matchAt_decomp suffix n1 n2 n3 n4 hm with
        ⟨w1, w2, w3, e, hsfx, hn1, hn2, hn3, hn4,
          hw1, hw1s, hw2, hw2s, hw3, hw3s⟩
      refine ⟨a, n1, w1, n2, w2, n3, w3, n4, e, ?_,
        hn1, hn2, hn3, hn4, hw1, hw1s, hw2, hw2s, hw3, hw3s⟩
      rw [heq, hsfx]
      simp [List.append_assoc]
  · rintro ⟨a, n1, w1, n2, w2, n3, w3, n4, e, rfl,
      hn1, hn2, hn3, hn4, hw1, hw1s, hw2, hw2s, hw3, hw3s⟩
    have hM := matchAt_assemble n1 w1 n2 w2 n3 w3 n4 e
      hn1 hn2 hn3 hn4 hw1 hw1s hw2 hw2s hw3 hw3s
    have hS := reSearch_isSome a _ hM
    have hremix : a ++ ('T' :: ':' :: n1) ++ w1 ++ ('H' :: ':' :: n2)
        ++ w2 ++ ('P' :: ':' :: n3) ++ w3
        ++ ('W' :: 'S' :: ':' :: n4) ++ e
        = a ++ (('T' :: ':' :: n1) ++ w1 ++ ('H' :: ':' :: n2) ++ w2
          ++ ('P' :: ':' :: n3) ++ w3
          ++ ('W' :: 'S' :: ':' :: n4) ++ e) := by
      simp [List.append_assoc]
    rw [hremix]
    unfold parse_weather_data_re
    cases hr : reSearch (a ++ (('T' :: ':' :: n1) ++ w1
        ++ ('H' :: ':' :: n2) ++ w2 ++ ('P' :: ':' :: n3) ++ w3
        ++ ('W' :: 'S' :: ':' :: n4) ++ e)) with
    | none => rw [hr] at hS; simp at hS
    | some g => rcases g with ⟨g1, g2, g3, g4⟩; simp
  · intro d hd
    unfold parse_weather_data_re at hd
    cases hs : reSearch line with
    | none => rw [hs] at hd; simp at hd
    | some g =>
      rcases g with ⟨g1, g2, g3, g4⟩
      rw [hs] at hd
      simp only [Option.some.injEq] at hd
      subst hd
      rfl

/-- Witness for C9 (amended) at the spec's example line. -/
theorem c9_regex_acceptance_wit :
    RegexContains "T:22.6 H:50.1 P:1011.9 WS:0.00".data ∧
    (parse_weather_data_re "T:22.6 H:50.1 P:1011.9 WS:0.00".data).isSome := by
  have hc : RegexContains "T:22.6 H:50.1 P:1011.9 WS:0.00".data := by
    refine ⟨[], "22.6".data, [' '], "50.1".data, [' '], "1011.9".data,
      [' '], "0.00".data, [], ?_, ?_, ?_, ?_, ?_, ?_, ?_, ?_, ?_, ?_, ?_⟩
    · decide
    · decide
    · decide
    · decide
    · decide
    · decide
    · decide
    · decide
    · decide
    · decide
    · decide
  exact ⟨hc,
    (c9_regex_acceptance "T:22.6 H:50.1 P:1011.9 WS:0.00".data).1.mpr hc⟩

/-- Witness for C10: a reading 5 queued at time 100 is drained at time
200 carrying timestamp 100, while an immediate send at 200 carries
200. -/
theorem c10_timestamps_wit :
    ((5, 100) ∈ queueDataTs 2 ([] : List (Nat × Nat)) 5 none 100) ∧
    drainSendTime ((5 : Nat), (100 : Nat)) 200 = 100 ∧
    influxPointTime none 200 = 200 := by
  have h := c10_timestamps 2 5 100 200 ([] : List (Nat × Nat))
  exact ⟨h.1, h.2.1 (5, 100) h.1, h.2.2.2⟩
